import Mathlib

/-!
Verification of the mongoose-intl plugin (src/lib/mongoose-intl.js) via a
shallow embedding.  JavaScript objects holding per-language string values are
modelled as association lists; JavaScript values relevant to the plugin's
truthiness checks are modelled by the inductive type JSVal; object identity
(aliasing of the configuration object and of the languages array) is modelled
by a small explicit heap of arrays and configuration objects.
-/

namespace MongooseIntl

/-- JavaScript values as far as the plugin inspects them: strings, booleans
and the undefined value. -/
inductive JSVal where
  | vStr : String → JSVal
  | vBool : Bool → JSVal
  | vUndef : JSVal
deriving DecidableEq, Repr

/-- JavaScript truthiness for the values of JSVal: the empty string, false
and undefined are falsy. -/
def truthy : JSVal → Bool
  | .vStr s => s ≠ ""
  | .vBool b => b
  | .vUndef => false

/-- The plugin configuration attached to a schema (value view, used for the
per-document semantics): the languages array contents and the resolved
default language. -/
structure IntlConfig where
  languages : List String
  defaultLanguage : String
deriving DecidableEq, Repr

/-- A document instance as the plugin sees it for one translatable field:
the per-language concrete storage subfields (language code to stored string),
plus the optional per-document language override docLanguage. -/
structure IntlDoc where
  fieldStore : List (String × String)
  docLanguage : Option String
deriving DecidableEq, Repr

/-- Reading property k of a JavaScript object holding string values:
first binding wins, absent keys read as undefined (here: none). -/
def lookupStore : List (String × String) → String → Option String
  | [], _ => none
  | (k, v) :: rest, key => if k = key then some v else lookupStore rest key

/-- Assigning property key of a JavaScript object (document.set on the dotted
subpath): overwrite the existing binding or append a new one. -/
def setStore : List (String × String) → String → String → List (String × String)
  | [], key, v => [(key, v)]
  | (k, w) :: rest, key, v =>
    if k = key then (k, v) :: rest else (k, w) :: setStore rest key v

/-- Document method getLanguage (src/lib/mongoose-intl.js lines 117-119):
this.docLanguage || defaultLanguage, with the empty string falsy. -/
def getLanguage (cfg : IntlConfig) (d : IntlDoc) : String :=
  match d.docLanguage with
  | some l => if l = "" then cfg.defaultLanguage else l
  | none => cfg.defaultLanguage

/-- Document method setLanguage (lines 120-124): store lang as the override
only when lang is truthy and indexOf over the configured languages finds it;
a non-string argument never matches a list of language-code strings. -/
def setLanguage (cfg : IntlConfig) (d : IntlDoc) (lang : JSVal) : IntlDoc :=
  match lang with
  | .vStr s =>
    if s ≠ "" ∧ s ∈ cfg.languages then { d with docLanguage := some s } else d
  | _ => d

/-- Document method unsetLanguage (lines 125-127): delete this.docLanguage. -/
def unsetLanguage (d : IntlDoc) : IntlDoc :=
  { d with docLanguage := none }

/-- Virtual getter for path p (lines 56-61): look the resolved current
language up in the stored per-language object. -/
def virtualGet (cfg : IntlConfig) (d : IntlDoc) : Option String :=
  lookupStore d.fieldStore (getLanguage cfg d)

/-- Virtual setter for path p (lines 62-67): this.set(p + dot + lang, value)
at the resolved current language. -/
def virtualSet (cfg : IntlConfig) (d : IntlDoc) (value : String) : IntlDoc :=
  { d with fieldStore := setStore d.fieldStore (getLanguage cfg d) value }

/-- Virtual getter for path p.all (lines 70-72): this.getValue(p), the raw
stored per-language object. -/
def virtualGetAll (d : IntlDoc) : List (String × String) :=
  d.fieldStore

/-- Virtual setter for path p.all (lines 73-78): iterate the configured
languages; skip a language whose value in the written object is absent or
falsy; otherwise set the concrete subfield for that language. -/
def virtualSetAll (cfg : IntlConfig) (d : IntlDoc)
    (value : List (String × String)) : IntlDoc :=
  cfg.languages.foldl
    (fun dd lang =>
      match lookupStore value lang with
      | none => dd
      | some v =>
        if v = "" then dd
        else { dd with fieldStore := setStore dd.fieldStore lang v })
    d

theorem lookupStore_setStore_self (st : List (String × String)) (k v : String) :
    lookupStore (setStore st k v) k = some v := by
  induction st with
  | nil => simp [setStore, lookupStore]
  | cons p rest ih =>
    obtain ⟨k0, w⟩ := p
    by_cases h : k0 = k
    · subst h; simp [setStore, lookupStore]
    · simp [setStore, lookupStore, h, ih]

theorem lookupStore_setStore_ne (st : List (String × String)) (k v k2 : String)
    (hne : k2 ≠ k) : lookupStore (setStore st k v) k2 = lookupStore st k2 := by
  have hne2 : ¬ k = k2 := fun h => hne h.symm
  induction st with
  | nil => simp [setStore, lookupStore, hne2]
  | cons p rest ih =>
    obtain ⟨k0, w⟩ := p
    by_cases h : k0 = k
    · subst h
      simp [setStore, lookupStore, hne2]
    · by_cases h2 : k0 = k2
      · subst h2; simp [setStore, lookupStore, h]
      · simp [setStore, lookupStore, h, h2, ih]

theorem virtualSet_docLanguage (cfg : IntlConfig) (d : IntlDoc) (v : String) :
    (virtualSet cfg d v).docLanguage = d.docLanguage := rfl

theorem virtualSet_getLanguage (cfg : IntlConfig) (d : IntlDoc) (v : String) :
    getLanguage cfg (virtualSet cfg d v) = getLanguage cfg d := rfl

/-- Claim C1: with the document's current language L, writing v to the field p
and then reading p (language still L) returns v; the stored per-language
object afterwards maps L to v; and the stored value of every language other
than L is unchanged by the write. -/
theorem write_read_roundtrip (cfg : IntlConfig) (d : IntlDoc) (L v : String)
    (hL : getLanguage cfg d = L) :
    virtualGet cfg (virtualSet cfg d v) = some v ∧
    lookupStore (virtualGetAll (virtualSet cfg d v)) L = some v ∧
    ∀ k, k ≠ L →
      lookupStore (virtualGetAll (virtualSet cfg d v)) k =
        lookupStore (virtualGetAll d) k := by
  refine ⟨?_, ?_, ?_⟩
  · rw [virtualGet, virtualSet_getLanguage, hL]
    show lookupStore (setStore d.fieldStore (getLanguage cfg d) v) L = some v
    rw [hL]
    exact lookupStore_setStore_self _ _ _
  · show lookupStore (setStore d.fieldStore (getLanguage cfg d) v) L = some v
    rw [hL]
    exact lookupStore_setStore_self _ _ _
  · intro k hk
    show lookupStore (setStore d.fieldStore (getLanguage cfg d) v) k =
      lookupStore d.fieldStore k
    rw [hL]
    exact lookupStore_setStore_ne _ _ _ _ hk

/-- Witness for the round-trip claim at a concrete document. -/
theorem write_read_roundtrip_witness :
    getLanguage ⟨["en", "de"], "en"⟩ ⟨[("de", "Hallo")], none⟩ = "en" ∧
    (virtualGet ⟨["en", "de"], "en"⟩
        (virtualSet ⟨["en", "de"], "en"⟩ ⟨[("de", "Hallo")], none⟩ "Hello") =
          some "Hello" ∧
      lookupStore
          (virtualGetAll
            (virtualSet ⟨["en", "de"], "en"⟩ ⟨[("de", "Hallo")], none⟩ "Hello"))
          "en" = some "Hello" ∧
      ∀ k, k ≠ "en" →
        lookupStore
            (virtualGetAll
              (virtualSet ⟨["en", "de"], "en"⟩ ⟨[("de", "Hallo")], none⟩
                "Hello")) k =
          lookupStore (virtualGetAll ⟨[("de", "Hallo")], none⟩) k) :=
  ⟨by decide, write_read_roundtrip ⟨["en", "de"], "en"⟩ ⟨[("de", "Hallo")], none⟩
    "en" "Hello" (by decide)⟩

/-- A document node in the ownership chain as the virtual accessors see it
(lines 57-59, 63-65): a top-level document exposes the language methods and
carries the per-document state; an embedded sub-document does not expose them
and only links to its parent. -/
inductive DocNode where
  | top : IntlDoc → DocNode
  | sub : DocNode → DocNode
deriving DecidableEq, Repr

/-- The loop while (not self.getLanguage) self = self.parent() of the virtual
accessors: walk up to the nearest node exposing the language methods. -/
def resolveOwner : DocNode → IntlDoc
  | .top d => d
  | .sub p => resolveOwner p

/-- The language a virtual accessor uses on a node: self.getLanguage() after
the parent walk. -/
def nodeLanguage (cfg : IntlConfig) (n : DocNode) : String :=
  getLanguage cfg (resolveOwner n)

/-- Claim C2: the language used by a virtual accessor is the document's own
truthy override when present, otherwise the configured defaultLanguage; and
on an embedded sub-document it is resolved relative to the nearest ancestor
that exposes the language methods. -/
theorem language_resolution (cfg : IntlConfig) (d : IntlDoc) :
    (∀ l, d.docLanguage = some l → l ≠ "" →
      nodeLanguage cfg (DocNode.top d) = l) ∧
    (d.docLanguage = none →
      nodeLanguage cfg (DocNode.top d) = cfg.defaultLanguage) ∧
    (∀ n : DocNode, nodeLanguage cfg (DocNode.sub n) = nodeLanguage cfg n) := by
  refine ⟨?_, ?_, ?_⟩
  · intro l hl hne
    simp [nodeLanguage, resolveOwner, getLanguage, hl, hne]
  · intro h
    simp [nodeLanguage, resolveOwner, getLanguage, h]
  · intro n
    simp [nodeLanguage, resolveOwner]

/-- Witness for the language-resolution claim at a concrete document, with
each hypothesis discharged, including a sub-document chain case. -/
theorem language_resolution_witness :
    nodeLanguage ⟨["en", "de"], "en"⟩ (DocNode.top ⟨[], some "de"⟩) = "de" ∧
    nodeLanguage ⟨["en", "de"], "en"⟩ (DocNode.top ⟨[], none⟩) = "en" ∧
    nodeLanguage ⟨["en", "de"], "en"⟩
        (DocNode.sub (DocNode.sub (DocNode.top ⟨[], some "de"⟩))) =
      nodeLanguage ⟨["en", "de"], "en"⟩
        (DocNode.sub (DocNode.top ⟨[], some "de"⟩)) :=
  ⟨(language_resolution ⟨["en", "de"], "en"⟩ ⟨[], some "de"⟩).1 "de" rfl
      (by decide),
    (language_resolution ⟨["en", "de"], "en"⟩ ⟨[], none⟩).2.1 rfl,
    (language_resolution ⟨["en", "de"], "en"⟩ ⟨[], some "de"⟩).2.2
      (DocNode.sub (DocNode.top ⟨[], some "de"⟩))⟩

/-- Claim C7 part 1 helper: a setLanguage argument that is falsy or is not a
configured language code leaves the document entirely unchanged. -/
theorem setLanguage_invalid (cfg : IntlConfig) (d : IntlDoc) (lang : JSVal)
    (h : truthy lang = false ∨ ∀ s, lang = JSVal.vStr s → s ∉ cfg.languages) :
    setLanguage cfg d lang = d := by
  cases lang with
  | vStr s =>
    rcases h with h | h
    · have hs : s = "" := by
        by_contra hne
        simp [truthy, hne] at h
      simp [setLanguage, hs]
    · have hs := h s rfl
      simp [setLanguage, hs]
  | vBool b => rfl
  | vUndef => rfl

/-- Claim C7: for a falsy argument or one not in the configured language list,
setLanguage is a no-op (never an error) and getLanguage is unchanged; for a
truthy configured language code, setLanguage stores the override and
getLanguage subsequently returns it. -/
theorem setLanguage_leniency (cfg : IntlConfig) (d : IntlDoc) (lang : JSVal) :
    ((truthy lang = false ∨ ∀ s, lang = JSVal.vStr s → s ∉ cfg.languages) →
      setLanguage cfg d lang = d ∧
      getLanguage cfg (setLanguage cfg d lang) = getLanguage cfg d) ∧
    (∀ s, lang = JSVal.vStr s → s ≠ "" → s ∈ cfg.languages →
      getLanguage cfg (setLanguage cfg d lang) = s) := by
  constructor
  · intro h
    rw [setLanguage_invalid cfg d lang h]
    exact ⟨rfl, rfl⟩
  · intro s hl hne hmem
    subst hl
    simp [setLanguage, hne, hmem, getLanguage]

/-- Witness for the setLanguage leniency claim at concrete inputs, with each
hypothesis discharged: the unconfigured code xx is a no-op, the configured
code de is stored. -/
theorem setLanguage_leniency_witness :
    (setLanguage ⟨["en", "de"], "en"⟩ ⟨[], none⟩ (JSVal.vStr "xx") = ⟨[], none⟩ ∧
      getLanguage ⟨["en", "de"], "en"⟩
          (setLanguage ⟨["en", "de"], "en"⟩ ⟨[], none⟩ (JSVal.vStr "xx")) =
        getLanguage ⟨["en", "de"], "en"⟩ ⟨[], none⟩) ∧
    getLanguage ⟨["en", "de"], "en"⟩
        (setLanguage ⟨["en", "de"], "en"⟩ ⟨[], none⟩ (JSVal.vStr "de")) = "de" :=
  ⟨(setLanguage_leniency ⟨["en", "de"], "en"⟩ ⟨[], none⟩ (JSVal.vStr "xx")).1
      (Or.inr fun s h hmem => by
        cases h
        exact (by decide : "xx" ∉ (["en", "de"] : List String)) hmem),
    (setLanguage_leniency ⟨["en", "de"], "en"⟩ ⟨[], none⟩ (JSVal.vStr "de")).2
      "de" rfl (by decide) (by decide)⟩

/-- One iteration of the forEach in the p.all setter (lines 74-77). -/
def setAllStep (value : List (String × String)) (dd : IntlDoc)
    (lang : String) : IntlDoc :=
  match lookupStore value lang with
  | none => dd
  | some v =>
    if v = "" then dd
    else { dd with fieldStore := setStore dd.fieldStore lang v }

theorem virtualSetAll_eq_foldl (cfg : IntlConfig) (d : IntlDoc)
    (value : List (String × String)) :
    virtualSetAll cfg d value = cfg.languages.foldl (setAllStep value) d := by
  rw [virtualSetAll]
  rfl

theorem setAllStep_docLanguage (value : List (String × String)) (dd : IntlDoc)
    (lang : String) : (setAllStep value dd lang).docLanguage = dd.docLanguage := by
  rw [setAllStep]
  cases lookupStore value lang with
  | none => rfl
  | some v =>
    by_cases h : v = "" <;> simp [h]

theorem foldl_setAllStep_docLanguage (value : List (String × String))
    (langs : List String) (d : IntlDoc) :
    (langs.foldl (setAllStep value) d).docLanguage = d.docLanguage := by
  induction langs generalizing d with
  | nil => rfl
  | cons a rest ih =>
    rw [List.foldl_cons, ih, setAllStep_docLanguage]

/-- Whether the object written to p.all holds a truthy value at key k
(the test on line 75 applied to key k). -/
def truthyAt (value : List (String × String)) (k : String) : Bool :=
  match lookupStore value k with
  | none => false
  | some v => v ≠ ""

theorem setAllStep_lookup_ne (value : List (String × String)) (d : IntlDoc)
    (a k : String) (hak : a ≠ k) :
    lookupStore (setAllStep value d a).fieldStore k =
      lookupStore d.fieldStore k := by
  rw [setAllStep]
  cases hv : lookupStore value a with
  | none => rfl
  | some v =>
    by_cases hve : v = ""
    · simp [hve]
    · simp only [hve, if_neg, if_false]
      exact lookupStore_setStore_ne _ _ _ _ fun h => hak h.symm

theorem setAllStep_lookup_self (value : List (String × String)) (d : IntlDoc)
    (a : String) :
    lookupStore (setAllStep value d a).fieldStore a =
      if truthyAt value a then lookupStore value a
      else lookupStore d.fieldStore a := by
  rw [setAllStep, truthyAt]
  cases hv : lookupStore value a with
  | none => simp
  | some v =>
    by_cases hve : v = ""
    · simp [hve]
    · simp [hve, lookupStore_setStore_self]

theorem foldl_setAllStep_lookup (value : List (String × String))
    (langs : List String) (d : IntlDoc) (k : String) :
    lookupStore (langs.foldl (setAllStep value) d).fieldStore k =
      if k ∈ langs ∧ truthyAt value k then lookupStore value k
      else lookupStore d.fieldStore k := by
  induction langs generalizing d with
  | nil => simp
  | cons a rest ih =>
    rw [List.foldl_cons, ih]
    cases htr : truthyAt value k with
    | true =>
      by_cases hmem : k ∈ rest
      · rw [if_pos ⟨hmem, rfl⟩, if_pos ⟨List.mem_cons_of_mem a hmem, rfl⟩]
      · rw [if_neg (by simp [hmem])]
        by_cases hak : a = k
        · subst hak
          rw [setAllStep_lookup_self, if_pos htr,
            if_pos ⟨List.mem_cons_self a rest, rfl⟩]
        · have hka : ¬ k = a := fun h => hak h.symm
          rw [setAllStep_lookup_ne value d a k hak,
            if_neg (by simp [hmem, hka])]
    | false =>
      rw [if_neg (by simp [htr]), if_neg (by simp [htr])]
      by_cases hak : a = k
      · subst hak
        rw [setAllStep_lookup_self, if_neg (by simp [htr])]
      · exact setAllStep_lookup_ne value d a k hak

/-- Claim C6: writing a mapping m to p.all ignores every key outside the
configured language list (its storage slot is untouched), leaves the stored
value of a configured language unchanged when its value in m is absent or
falsy, and stores the value of every configured language whose value in m is
a truthy string. -/
theorem setAll_semantics (cfg : IntlConfig) (d : IntlDoc)
    (m : List (String × String)) (k : String) :
    (k ∉ cfg.languages →
      lookupStore (virtualSetAll cfg d m).fieldStore k =
        lookupStore d.fieldStore k) ∧
    (k ∈ cfg.languages → (lookupStore m k = none ∨ lookupStore m k = some "") →
      lookupStore (virtualSetAll cfg d m).fieldStore k =
        lookupStore d.fieldStore k) ∧
    (∀ v, k ∈ cfg.languages → lookupStore m k = some v → v ≠ "" →
      lookupStore (virtualSetAll cfg d m).fieldStore k = some v) := by
  rw [virtualSetAll_eq_foldl]
  refine ⟨?_, ?_, ?_⟩
  · intro hk
    rw [foldl_setAllStep_lookup]
    simp [hk]
  · intro hk hm
    rw [foldl_setAllStep_lookup]
    have : truthyAt m k = false := by
      rcases hm with hm | hm <;> simp [truthyAt, hm]
    simp [this]
  · intro v hk hm hv
    rw [foldl_setAllStep_lookup]
    have : truthyAt m k = true := by simp [truthyAt, hm, hv]
    simp [this, hk, hm]

/-- Witness for the p.all write semantics at a concrete document and mapping:
the unknown key xx is ignored, the falsy value for en leaves the old value,
and the truthy value for de is stored. -/
theorem setAll_semantics_witness :
    lookupStore
        (virtualSetAll ⟨["en", "de"], "en"⟩
            ⟨[("en", "Hello"), ("xx", "old")], none⟩
            [("xx", "ignored"), ("en", ""), ("de", "Hallo")]).fieldStore
        "xx" = lookupStore [("en", "Hello"), ("xx", "old")] "xx" ∧
    lookupStore
        (virtualSetAll ⟨["en", "de"], "en"⟩
            ⟨[("en", "Hello"), ("xx", "old")], none⟩
            [("xx", "ignored"), ("en", ""), ("de", "Hallo")]).fieldStore
        "en" = lookupStore [("en", "Hello"), ("xx", "old")] "en" ∧
    lookupStore
        (virtualSetAll ⟨["en", "de"], "en"⟩
            ⟨[("en", "Hello"), ("xx", "old")], none⟩
            [("xx", "ignored"), ("en", ""), ("de", "Hallo")]).fieldStore
        "de" = some "Hallo" :=
  ⟨(setAll_semantics ⟨["en", "de"], "en"⟩ ⟨[("en", "Hello"), ("xx", "old")], none⟩
        [("xx", "ignored"), ("en", ""), ("de", "Hallo")] "xx").1 (by decide),
    (setAll_semantics ⟨["en", "de"], "en"⟩ ⟨[("en", "Hello"), ("xx", "old")], none⟩
        [("xx", "ignored"), ("en", ""), ("de", "Hallo")] "en").2.1 (by decide)
      (Or.inr (by decide)),
    (setAll_semantics ⟨["en", "de"], "en"⟩ ⟨[("en", "Hello"), ("xx", "old")], none⟩
        [("xx", "ignored"), ("en", ""), ("de", "Hallo")] "de").2.2 "Hallo"
      (by decide) (by decide) (by decide)⟩


/-- The plugin operations that touch a document's state: the virtual write of
the field, the p.all write, setLanguage and unsetLanguage. -/
inductive DocOp where
  | writeField : String → DocOp
  | writeAll : List (String × String) → DocOp
  | setLang : JSVal → DocOp
  | unsetLang : DocOp
deriving DecidableEq, Repr

/-- Apply one plugin operation to a document. -/
def applyOp (cfg : IntlConfig) (d : IntlDoc) : DocOp → IntlDoc
  | .writeField v => virtualSet cfg d v
  | .writeAll m => virtualSetAll cfg d m
  | .setLang l => setLanguage cfg d l
  | .unsetLang => unsetLanguage d

/-- Apply a sequence of plugin operations to a document. -/
def applyOps (cfg : IntlConfig) (d : IntlDoc) (ops : List DocOp) : IntlDoc :=
  ops.foldl (applyOp cfg) d

/-- A freshly constructed document: no stored values and no language
override. -/
def initDoc : IntlDoc :=
  ⟨[], none⟩

/-- The docLanguage invariant: the override, when present, is a truthy member
of the configured language list. -/
def langInvariant (cfg : IntlConfig) (d : IntlDoc) : Prop :=
  ∀ l, d.docLanguage = some l → l ≠ "" ∧ l ∈ cfg.languages

theorem virtualSetAll_docLanguage (cfg : IntlConfig) (d : IntlDoc)
    (m : List (String × String)) :
    (virtualSetAll cfg d m).docLanguage = d.docLanguage := by
  rw [virtualSetAll_eq_foldl]
  exact foldl_setAllStep_docLanguage m cfg.languages d

theorem applyOp_langInvariant (cfg : IntlConfig) (d : IntlDoc) (op : DocOp)
    (h : langInvariant cfg d) : langInvariant cfg (applyOp cfg d op) := by
  cases op with
  | writeField v =>
    intro l hl
    rw [applyOp, virtualSet_docLanguage] at hl
    exact h l hl
  | writeAll m =>
    intro l hl
    rw [applyOp, virtualSetAll_docLanguage] at hl
    exact h l hl
  | setLang jl =>
    intro l hl
    rw [applyOp] at hl
    cases jl with
    | vStr s =>
      rw [setLanguage] at hl
      by_cases hc : s ≠ "" ∧ s ∈ cfg.languages
      · rw [if_pos hc] at hl
        cases hl
        exact hc
      · rw [if_neg hc] at hl
        exact h l hl
    | vBool b => exact h l hl
    | vUndef => exact h l hl
  | unsetLang =>
    intro l hl
    cases hl

theorem applyOps_langInvariant (cfg : IntlConfig) (ops : List DocOp)
    (d : IntlDoc) (h : langInvariant cfg d) :
    langInvariant cfg (applyOps cfg d ops) := by
  induction ops generalizing d with
  | nil => exact h
  | cons op rest ih =>
    exact ih (applyOp cfg d op) (applyOp_langInvariant cfg d op h)

/-- Claim C10: starting from a fresh document, after any sequence of plugin
operations the docLanguage override, when present, is a truthy member of the
configured language list; hence getLanguage always returns a member of that
list (given the configuration invariant that the default language is a
member); and the field writes never touch docLanguage. -/
theorem docLanguage_invariant (cfg : IntlConfig)
    (hdef : cfg.defaultLanguage ∈ cfg.languages) (ops : List DocOp) :
    langInvariant cfg (applyOps cfg initDoc ops) ∧
    getLanguage cfg (applyOps cfg initDoc ops) ∈ cfg.languages ∧
    (∀ d v, (virtualSet cfg d v).docLanguage = d.docLanguage) ∧
    (∀ d m, (virtualSetAll cfg d m).docLanguage = d.docLanguage) := by
  have hinv : langInvariant cfg (applyOps cfg initDoc ops) :=
    applyOps_langInvariant cfg ops initDoc (by intro l hl; cases hl)
  refine ⟨hinv, ?_, virtualSet_docLanguage cfg, virtualSetAll_docLanguage cfg⟩
  rw [getLanguage]
  cases hd : (applyOps cfg initDoc ops).docLanguage with
  | none => exact hdef
  | some l =>
    obtain ⟨hne, hmem⟩ := hinv l hd
    show (if l = "" then cfg.defaultLanguage else l) ∈ cfg.languages
    rw [if_neg hne]
    exact hmem

/-- Witness for the docLanguage invariant claim at a concrete configuration
and operation sequence. -/
theorem docLanguage_invariant_witness :
    (⟨["en", "de"], "en"⟩ : IntlConfig).defaultLanguage ∈
        (⟨["en", "de"], "en"⟩ : IntlConfig).languages ∧
    (langInvariant ⟨["en", "de"], "en"⟩
        (applyOps ⟨["en", "de"], "en"⟩ initDoc
          [DocOp.writeField "x", DocOp.setLang (JSVal.vStr "de")]) ∧
      getLanguage ⟨["en", "de"], "en"⟩
          (applyOps ⟨["en", "de"], "en"⟩ initDoc
            [DocOp.writeField "x", DocOp.setLang (JSVal.vStr "de")]) ∈
        (["en", "de"] : List String) ∧
      (∀ d v,
        (virtualSet ⟨["en", "de"], "en"⟩ d v).docLanguage = d.docLanguage) ∧
      (∀ d m,
        (virtualSetAll ⟨["en", "de"], "en"⟩ d m).docLanguage =
          d.docLanguage)) :=
  ⟨by decide, docLanguage_invariant ⟨["en", "de"], "en"⟩ (by decide)
    [DocOp.writeField "x", DocOp.setLang (JSVal.vStr "de")]⟩

/-- A schema together with the nested sub-document schemas reachable by
walking its declared fields (eachPath, line 144), each carrying its own
plugin configuration. -/
inductive SchemaTree where
  | node : IntlConfig → List SchemaTree → SchemaTree

/-- The plugin configuration attached to the schema itself. -/
def SchemaTree.config : SchemaTree → IntlConfig
  | .node cfg _ => cfg

mutual
/-- The inner updateLanguage of the static setDefaultLanguage (lines 140-150):
set defaultLanguage on this schema's configuration, then recurse into every
nested sub-document schema. -/
def updateLanguage : SchemaTree → String → SchemaTree
  | .node cfg children, lang =>
    .node { cfg with defaultLanguage := lang } (updateLanguageList children lang)

/-- updateLanguage mapped over the sub-schemas found by eachPath. -/
def updateLanguageList : List SchemaTree → String → List SchemaTree
  | [], _ => []
  | c :: cs, lang => updateLanguage c lang :: updateLanguageList cs lang
end

/-- The static setDefaultLanguage (lines 138-154): guarded by the truthiness
and membership check on this schema's configured languages. -/
def setDefaultLanguage (t : SchemaTree) (lang : String) : SchemaTree :=
  if lang ≠ "" ∧ lang ∈ t.config.languages then updateLanguage t lang else t

mutual
/-- Every defaultLanguage found in a schema tree (the schema's own
configuration and, recursively, those of all nested sub-schemas). -/
def allDefaults : SchemaTree → List String
  | .node cfg children => cfg.defaultLanguage :: allDefaultsList children

/-- allDefaults collected over a list of sub-schemas. -/
def allDefaultsList : List SchemaTree → List String
  | [] => []
  | c :: cs => allDefaults c ++ allDefaultsList cs
end

mutual
theorem updateLanguage_allDefaults (t : SchemaTree) (lang : String) :
    ∀ s ∈ allDefaults (updateLanguage t lang), s = lang :=
  match t with
  | .node cfg children => by
    intro s hs
    rw [updateLanguage, allDefaults] at hs
    rcases List.mem_cons.mp hs with h | h
    · exact h
    · exact updateLanguageList_allDefaults children lang s h

theorem updateLanguageList_allDefaults (cs : List SchemaTree) (lang : String) :
    ∀ s ∈ allDefaultsList (updateLanguageList cs lang), s = lang :=
  match cs with
  | [] => by
    intro s hs
    rw [updateLanguageList, allDefaultsList] at hs
    cases hs
  | c :: rest => by
    intro s hs
    rw [updateLanguageList, allDefaultsList] at hs
    rcases List.mem_append.mp hs with h | h
    · exact updateLanguage_allDefaults c lang s h
    · exact updateLanguageList_allDefaults rest lang s h
end

/-- Claim C5: if lang is a truthy member of the schema's configured language
list, the static setDefaultLanguage updates the defaultLanguage of this
schema's configuration and of every nested sub-schema's configuration found
by walking declared fields; if lang is falsy or not a member the call is a
no-op leaving every configuration unchanged. -/
theorem setDefaultLanguage_semantics (t : SchemaTree) (lang : String) :
    (lang ≠ "" → lang ∈ t.config.languages →
      ∀ s ∈ allDefaults (setDefaultLanguage t lang), s = lang) ∧
    ((lang = "" ∨ lang ∉ t.config.languages) → setDefaultLanguage t lang = t) := by
  constructor
  · intro hne hmem
    rw [setDefaultLanguage, if_pos ⟨hne, hmem⟩]
    exact updateLanguage_allDefaults t lang
  · intro h
    rw [setDefaultLanguage, if_neg]
    rintro ⟨hne, hmem⟩
    rcases h with h | h
    · exact hne h
    · exact h hmem

/-- Witness for the setDefaultLanguage claim on a concrete two-level schema
tree: the member code de updates every configuration, the unknown code xx is
a no-op. -/
theorem setDefaultLanguage_semantics_witness :
    (∀ s ∈ allDefaults
        (setDefaultLanguage
          (SchemaTree.node ⟨["en", "de"], "en"⟩
            [SchemaTree.node ⟨["en", "de"], "en"⟩ []]) "de"), s = "de") ∧
    setDefaultLanguage
        (SchemaTree.node ⟨["en", "de"], "en"⟩
          [SchemaTree.node ⟨["en", "de"], "en"⟩ []]) "xx" =
      SchemaTree.node ⟨["en", "de"], "en"⟩
        [SchemaTree.node ⟨["en", "de"], "en"⟩ []] :=
  ⟨(setDefaultLanguage_semantics
        (SchemaTree.node ⟨["en", "de"], "en"⟩
          [SchemaTree.node ⟨["en", "de"], "en"⟩ []]) "de").1 (by decide)
      (by decide),
    (setDefaultLanguage_semantics
        (SchemaTree.node ⟨["en", "de"], "en"⟩
          [SchemaTree.node ⟨["en", "de"], "en"⟩ []]) "xx").2
      (Or.inr (by decide))⟩

/-- A configuration object as stored under schema.options.mongooseIntl: it
holds a reference to the languages array (an index into the heap of arrays)
and the resolved default language string. -/
structure CfgObj where
  languagesRef : Nat
  defaultLanguage : String
deriving DecidableEq, Repr

/-- A heap modelling JavaScript object identity for the mutable objects the
plugin shares: string arrays (the languages arrays) and configuration
objects. References are indices. -/
structure JSHeap where
  arrays : List (List String)
  configs : List CfgObj
deriving DecidableEq, Repr

/-- Read the array at reference r (a dangling reference reads as empty, which
the plugin treats like a missing languages option). -/
def readArray (h : JSHeap) (r : Nat) : List String :=
  (h.arrays.get? r).getD []

/-- Mutate the array at reference r in place. -/
def writeArray (h : JSHeap) (r : Nat) (a : List String) : JSHeap :=
  { h with arrays := h.arrays.set r a }

/-- Allocate a fresh array object. -/
def allocArray (h : JSHeap) (a : List String) : JSHeap × Nat :=
  ({ h with arrays := h.arrays ++ [a] }, h.arrays.length)

/-- Read the configuration object at reference r. -/
def readConfig (h : JSHeap) (r : Nat) : CfgObj :=
  (h.configs.get? r).getD ⟨0, ""⟩

/-- Mutate the defaultLanguage of the configuration object at reference r in
place (what a non-recursive assignment to the parent configuration does). -/
def writeConfigDefault (h : JSHeap) (r : Nat) (lang : String) : JSHeap :=
  { h with configs := h.configs.set r { readConfig h r with defaultLanguage := lang } }

/-- Allocate a fresh configuration object (line 12: a new empty object is
assigned to schema.options.mongooseIntl). -/
def allocConfig (h : JSHeap) (c : CfgObj) : JSHeap × Nat :=
  ({ h with configs := h.configs ++ [c] }, h.configs.length)

/-- The options argument of the plugin function: a reference to a languages
array (or absent) and a defaultLanguage value (or absent). A configuration
object passed as the options argument has exactly this shape. -/
structure OptionsObj where
  languagesRef : Option Nat
  defaultLanguage : Option String
deriving DecidableEq, Repr

/-- Lines 7-22 of src/lib/mongoose-intl.js: validate the languages option,
allocate a fresh configuration object holding a copy (slice) of the caller's
languages array, and resolve defaultLanguage: a falsy or unknown supplied
value is replaced by the first configured language, a truthy member is kept
(string values are immutable, so the slice copy is the same value). Returns
none when the required languages array is missing or empty (the thrown
mongoose.Error). -/
def attachConfig (h : JSHeap) (opts : OptionsObj) : Option (JSHeap × Nat) :=
  match opts.languagesRef with
  | none => none
  | some r =>
    match readArray h r with
    | [] => none
    | l :: ls =>
      let src := l :: ls
      let arrAlloc := allocArray h src
      let dflt :=
        match opts.defaultLanguage with
        | none => l
        | some dl => if dl = "" ∨ dl ∉ src then l else dl
      some (allocConfig arrAlloc.1 ⟨arrAlloc.2, dflt⟩)

/-- The sub-document schemas declared under a schema (the fields for which
schemaType.schema is set, line 25), as a bare shape tree. -/
inductive SchemaShape where
  | node : List SchemaShape → SchemaShape

/-- The configuration references resulting from attaching the plugin to a
schema and, recursively, to its nested sub-schemas. -/
inductive RefTree where
  | node : Nat → List RefTree → RefTree

mutual
/-- The whole plugin attachment as far as configuration objects are
concerned: build this schema's configuration (lines 7-22), then recurse into
every nested sub-document schema passing this schema's configuration object
as the options argument (line 26: schemaType.schema.plugin(mongooseIntl,
pluginOptions)). -/
def attachPlugin : JSHeap → SchemaShape → OptionsObj → Option (JSHeap × RefTree)
  | h, .node children, opts =>
    match attachConfig h opts with
    | none => none
    | some (h1, cfgRef) =>
      match attachChildren h1 children
          ⟨some (readConfig h1 cfgRef).languagesRef,
            some (readConfig h1 cfgRef).defaultLanguage⟩ with
      | none => none
      | some (h2, kids) => some (h2, .node cfgRef kids)

/-- attachPlugin over the sub-schemas found by eachPath, threading the heap. -/
def attachChildren : JSHeap → List SchemaShape → OptionsObj →
    Option (JSHeap × List RefTree)
  | h, [], _ => some (h, [])
  | h, c :: cs, opts =>
    match attachPlugin h c opts with
    | none => none
    | some (h1, t) =>
      match attachChildren h1 cs opts with
      | none => none
      | some (h2, ts) => some (h2, t :: ts)
end

/-- The document method getLanguages (lines 114-116) and the model static
getLanguages (lines 132-134): both return
this.schema.options.mongooseIntl.languages, i.e. the languages array object
itself, by reference. -/
def getLanguagesMethod (h : JSHeap) (cfgRef : Nat) : Nat :=
  (readConfig h cfgRef).languagesRef

/-- The languages list the plugin configuration at cfgRef actually uses (for
resolution, setLanguage validation and p.all writes): the current contents of
its languages array. -/
def configLanguages (h : JSHeap) (cfgRef : Nat) : List String :=
  readArray h (readConfig h cfgRef).languagesRef

/-- Attachment of the plugin to a schema on a heap holding only the caller's
languages array (at reference 0). -/
def attachOnFreshHeap (langs : List String) (od : Option String) :
    Option (JSHeap × Nat) :=
  attachConfig ⟨[langs], []⟩ ⟨some 0, od⟩

/-- The heap after attachOnFreshHeap (the empty heap if attachment failed). -/
def attachedHeap (langs : List String) (od : Option String) : JSHeap :=
  match attachOnFreshHeap langs od with
  | some (h1, _) => h1
  | none => ⟨[], []⟩

/-- Claim C4: attaching with a non-empty languages list succeeds and yields a
configuration whose defaultLanguage is the supplied value when that value is
a truthy member of languages, and languages[0] when the supplied value is
absent, falsy or not a member; the configuration's languages array is a fresh
copy, not an alias of the caller's array, so a later mutation of the caller's
array leaves the configured list unchanged. -/
theorem config_normalization (l : String) (ls : List String)
    (od : Option String) :
    attachOnFreshHeap (l :: ls) od = some (attachedHeap (l :: ls) od, 0) ∧
    (∀ d, od = some d → d ≠ "" → d ∈ l :: ls →
      (readConfig (attachedHeap (l :: ls) od) 0).defaultLanguage = d) ∧
    ((od = none ∨ od = some "" ∨ ∀ d, od = some d → d ∉ l :: ls) →
      (readConfig (attachedHeap (l :: ls) od) 0).defaultLanguage = l) ∧
    (readConfig (attachedHeap (l :: ls) od) 0).languagesRef ≠ 0 ∧
    configLanguages (attachedHeap (l :: ls) od) 0 = l :: ls ∧
    (∀ a, configLanguages (writeArray (attachedHeap (l :: ls) od) 0 a) 0 =
      l :: ls) := by
  cases od with
  | none =>
    refine ⟨rfl, ?_, fun _ => rfl, Nat.one_ne_zero, rfl, fun a => rfl⟩
    intro d hd
    exact Option.noConfusion hd
  | some d =>
    have hred : attachOnFreshHeap (l :: ls) (some d) =
        some (allocConfig (allocArray ⟨[l :: ls], []⟩ (l :: ls)).1
          ⟨(allocArray ⟨[l :: ls], []⟩ (l :: ls)).2,
            if d = "" ∨ d ∉ l :: ls then l else d⟩) := rfl
    by_cases hc : d = "" ∨ d ∉ l :: ls
    · have he : attachOnFreshHeap (l :: ls) (some d) =
          some (⟨[l :: ls, l :: ls], [⟨1, l⟩]⟩, 0) := by
        rw [hred, if_pos hc]
        rfl
      have hh : attachedHeap (l :: ls) (some d) =
          ⟨[l :: ls, l :: ls], [⟨1, l⟩]⟩ := by
        rw [attachedHeap, he]
      refine ⟨?_, ?_, ?_, ?_, ?_, ?_⟩
      · rw [he, hh]
      · intro d0 hd0 hne hmem
        cases hd0
        rcases hc with hc | hc
        · exact absurd hc hne
        · exact absurd hmem hc
      · intro _
        rw [hh]
        rfl
      · rw [hh]
        exact Nat.one_ne_zero
      · rw [hh]
        rfl
      · intro a
        rw [hh]
        rfl
    · push_neg at hc
      have hnc : ¬ (d = "" ∨ d ∉ l :: ls) := by
        rintro (h | h)
        · exact hc.1 h
        · exact h hc.2
      have he : attachOnFreshHeap (l :: ls) (some d) =
          some (⟨[l :: ls, l :: ls], [⟨1, d⟩]⟩, 0) := by
        rw [hred, if_neg hnc]
        rfl
      have hh : attachedHeap (l :: ls) (some d) =
          ⟨[l :: ls, l :: ls], [⟨1, d⟩]⟩ := by
        rw [attachedHeap, he]
      refine ⟨?_, ?_, ?_, ?_, ?_, ?_⟩
      · rw [he, hh]
      · intro d0 hd0 hne hmem
        cases hd0
        rw [hh]
        rfl
      · rintro (h | h | h)
        · exact Option.noConfusion h
        · cases h
          exact absurd rfl hc.1
        · exact absurd hc.2 (h d rfl)
      · rw [hh]
        exact Nat.one_ne_zero
      · rw [hh]
        rfl
      · intro a
        rw [hh]
        rfl

/-- Witness for the configuration-normalization claim, with the hypotheses
discharged at concrete inputs: a supplied member is kept, an absent
defaultLanguage resolves to the first language, and mutating the caller's
array after attachment leaves the configured list unchanged. -/
theorem config_normalization_witness :
    (readConfig (attachedHeap ["en", "de"] (some "de")) 0).defaultLanguage =
        "de" ∧
    (readConfig (attachedHeap ["en", "de"] none) 0).defaultLanguage = "en" ∧
    configLanguages
        (writeArray (attachedHeap ["en", "de"] (some "de")) 0 ["xx"]) 0 =
      ["en", "de"] :=
  ⟨(config_normalization "en" ["de"] (some "de")).2.1 "de" rfl (by decide)
      (by decide),
    (config_normalization "en" ["de"] none).2.2.1 (Or.inl rfl),
    (config_normalization "en" ["de"] (some "de")).2.2.2.2.2 ["xx"]⟩

/-- The defaultLanguage normalization of lines 17-22 as a pure value:
languages l :: ls with supplied option od. -/
def normDefault (l : String) (ls : List String) (od : Option String) : String :=
  match od with
  | none => l
  | some dl => if dl = "" ∨ dl ∉ l :: ls then l else dl

theorem normDefault_idem (l : String) (ls : List String) (od : Option String) :
    normDefault l ls (some (normDefault l ls od)) = normDefault l ls od := by
  cases od with
  | none =>
    have h0 : normDefault l ls none = l := rfl
    rw [h0]
    simp only [normDefault]
    exact ite_self l
  | some dl =>
    by_cases hc : dl = "" ∨ dl ∉ l :: ls
    · have h1 : normDefault l ls (some dl) = l := by
        simp only [normDefault]
        exact if_pos hc
      rw [h1]
      simp only [normDefault]
      exact ite_self l
    · have h1 : normDefault l ls (some dl) = dl := by
        simp only [normDefault]
        exact if_neg hc
      rw [h1]
      exact h1

/-- Attachment of the plugin to a parent schema holding one nested
sub-document schema, on a heap holding only the caller's languages array
(at reference 0). -/
def attachParentChild (langs : List String) (od : Option String) :
    Option (JSHeap × RefTree) :=
  attachPlugin ⟨[langs], []⟩ (.node [.node []]) ⟨some 0, od⟩

theorem attachParentChild_eq (l : String) (ls : List String)
    (od : Option String) :
    attachParentChild (l :: ls) od =
      some (⟨[l :: ls, l :: ls, l :: ls],
          [⟨1, normDefault l ls od⟩,
            ⟨2, normDefault l ls (some (normDefault l ls od))⟩]⟩,
        RefTree.node 0 [RefTree.node 1 []]) := rfl

/-- The IntlConfig a document-level getLanguage effectively reads from the
configuration object at cfgRef (line 118:
this.schema.options.mongooseIntl): the current array contents and
defaultLanguage of that configuration object. -/
def heapConfig (h : JSHeap) (cfgRef : Nat) : IntlConfig :=
  ⟨configLanguages h cfgRef, (readConfig h cfgRef).defaultLanguage⟩

/-- Claim C8, amended: the Field Rewriter applies the plugin to the nested
schema passing the parent's PluginConfiguration object as the options
argument, but the nested schema allocates its own fresh configuration object
with its own copy of the languages array, seeded with equal contents — the
two configurations are not one object shared by reference; nevertheless a
later change to the parent configuration's defaultLanguage alone, without
recursive propagation, IS visible when resolving a nested field's language,
because the nested virtual accessors resolve via the enclosing top-level
document (lines 57-59), whose getLanguage reads the parent schema's
configuration (line 118) — the nested schema's own configuration object,
which the change leaves untouched, is not consulted. -/
theorem nested_config_copy_visibility (l : String) (ls : List String)
    (od : Option String) :
    attachParentChild (l :: ls) od =
      some (⟨[l :: ls, l :: ls, l :: ls],
          [⟨1, normDefault l ls od⟩, ⟨2, normDefault l ls od⟩]⟩,
        RefTree.node 0 [RefTree.node 1 []]) ∧
    (∀ h2 : JSHeap,
      attachParentChild (l :: ls) od = some (h2, RefTree.node 0 [RefTree.node 1 []]) →
      (readConfig h2 0).languagesRef ≠ (readConfig h2 1).languagesRef ∧
      configLanguages h2 0 = l :: ls ∧
      configLanguages h2 1 = l :: ls ∧
      (readConfig h2 0).defaultLanguage = (readConfig h2 1).defaultLanguage ∧
      (∀ lang2, readConfig (writeConfigDefault h2 0 lang2) 1 = readConfig h2 1) ∧
      (∀ lang2 (d : IntlDoc), d.docLanguage = none →
        nodeLanguage (heapConfig (writeConfigDefault h2 0 lang2) 0)
          (DocNode.sub (DocNode.top d)) = lang2)) := by
  have heq := attachParentChild_eq l ls od
  rw [normDefault_idem] at heq
  refine ⟨heq, ?_⟩
  intro h2 hh2
  rw [heq] at hh2
  have hh : h2 = ⟨[l :: ls, l :: ls, l :: ls],
      [⟨1, normDefault l ls od⟩, ⟨2, normDefault l ls od⟩]⟩ := by
    cases hh2
    rfl
  subst hh
  refine ⟨?_, rfl, rfl, rfl, fun lang2 => rfl, ?_⟩
  · intro hcontra
    exact Nat.noConfusion (Nat.succ.inj hcontra)
  · intro lang2 d hd
    show getLanguage
      (heapConfig
        (writeConfigDefault ⟨[l :: ls, l :: ls, l :: ls],
          [⟨1, normDefault l ls od⟩, ⟨2, normDefault l ls od⟩]⟩ 0 lang2) 0) d =
      lang2
    rw [getLanguage, hd]
    rfl

/-- Witness for the amended nested-configuration claim at a concrete
attachment, with the hypotheses discharged: distinct languages arrays, equal
seeded contents, nested configuration object untouched by a parent-only
default change, and that change visible when resolving a nested field's
language through the parent chain. -/
theorem nested_config_copy_visibility_witness :
    (readConfig ⟨[["en", "de"], ["en", "de"], ["en", "de"]],
        [⟨1, "en"⟩, ⟨2, "en"⟩]⟩ 0).languagesRef ≠
      (readConfig ⟨[["en", "de"], ["en", "de"], ["en", "de"]],
        [⟨1, "en"⟩, ⟨2, "en"⟩]⟩ 1).languagesRef ∧
    configLanguages ⟨[["en", "de"], ["en", "de"], ["en", "de"]],
        [⟨1, "en"⟩, ⟨2, "en"⟩]⟩ 0 = ["en", "de"] ∧
    readConfig
        (writeConfigDefault ⟨[["en", "de"], ["en", "de"], ["en", "de"]],
          [⟨1, "en"⟩, ⟨2, "en"⟩]⟩ 0 "fr") 1 =
      readConfig ⟨[["en", "de"], ["en", "de"], ["en", "de"]],
        [⟨1, "en"⟩, ⟨2, "en"⟩]⟩ 1 ∧
    nodeLanguage
        (heapConfig
          (writeConfigDefault ⟨[["en", "de"], ["en", "de"], ["en", "de"]],
            [⟨1, "en"⟩, ⟨2, "en"⟩]⟩ 0 "fr") 0)
        (DocNode.sub (DocNode.top ⟨[], none⟩)) = "fr" := by
  have h := (nested_config_copy_visibility "en" ["de"] (some "en")).2
    ⟨[["en", "de"], ["en", "de"], ["en", "de"]], [⟨1, "en"⟩, ⟨2, "en"⟩]⟩ rfl
  exact ⟨h.1, h.2.1, h.2.2.2.2.1 "fr", h.2.2.2.2.2 "fr" ⟨[], none⟩ rfl⟩

/-- Counterexample to claim C8 as stated: at a concrete attachment the parent
and nested schemas' configurations are not one object shared by reference —
they hold distinct languages arrays, and a change to the parent
configuration's defaultLanguage alone leaves the nested configuration object
entirely untouched (its defaultLanguage still reads en), which could not
happen if the two configurations were the same object. -/
theorem nested_config_shared_counterexample :
    attachParentChild ["en", "de"] (some "en") =
      some (⟨[["en", "de"], ["en", "de"], ["en", "de"]],
          [⟨1, "en"⟩, ⟨2, "en"⟩]⟩, RefTree.node 0 [RefTree.node 1 []]) ∧
    (readConfig ⟨[["en", "de"], ["en", "de"], ["en", "de"]],
        [⟨1, "en"⟩, ⟨2, "en"⟩]⟩ 0).languagesRef ≠
      (readConfig ⟨[["en", "de"], ["en", "de"], ["en", "de"]],
        [⟨1, "en"⟩, ⟨2, "en"⟩]⟩ 1).languagesRef ∧
    (readConfig
        (writeConfigDefault ⟨[["en", "de"], ["en", "de"], ["en", "de"]],
          [⟨1, "en"⟩, ⟨2, "en"⟩]⟩ 0 "de") 1).defaultLanguage = "en" ∧
    ("en" : String) ≠ "de" :=
  ⟨rfl, by decide, rfl, by decide⟩

/-- Claim C9, amended: getLanguages (document method, lines 114-116, and
model static, lines 132-134) returns the configuration's languages array
itself, by reference; a mutation through the returned reference is therefore
visible in the languages list the plugin configuration uses. -/
theorem getLanguages_by_reference (h : JSHeap) (r : Nat) (a : List String)
    (hlt : (readConfig h r).languagesRef < h.arrays.length) :
    configLanguages (writeArray h (getLanguagesMethod h r) a) r = a := by
  show readArray (writeArray h (getLanguagesMethod h r) a)
    (readConfig h r).languagesRef = a
  rw [readArray, writeArray, getLanguagesMethod]
  rw [List.get?_set_eq_of_lt a hlt]
  rfl

/-- Witness for the amended getLanguages claim at a concrete heap. -/
theorem getLanguages_by_reference_witness :
    (readConfig ⟨[["en"]], [⟨0, "en"⟩]⟩ 0).languagesRef <
      (JSHeap.mk [["en"]] [⟨0, "en"⟩]).arrays.length ∧
    configLanguages
        (writeArray ⟨[["en"]], [⟨0, "en"⟩]⟩
          (getLanguagesMethod ⟨[["en"]], [⟨0, "en"⟩]⟩ 0) ["en", "de"]) 0 =
      ["en", "de"] :=
  ⟨by decide, getLanguages_by_reference ⟨[["en"]], [⟨0, "en"⟩]⟩ 0 ["en", "de"]
    (by decide)⟩

/-- Counterexample to claim C9 as stated: at a concrete heap, mutating the
sequence returned by getLanguages changes the canonical configured language
list, and consequently changes which codes setLanguage accepts. -/
theorem getLanguages_immutable_counterexample :
    configLanguages
        (writeArray ⟨[["en"]], [⟨0, "en"⟩]⟩
          (getLanguagesMethod ⟨[["en"]], [⟨0, "en"⟩]⟩ 0) ["en", "de"]) 0 ≠
      configLanguages ⟨[["en"]], [⟨0, "en"⟩]⟩ 0 ∧
    setLanguage ⟨configLanguages ⟨[["en"]], [⟨0, "en"⟩]⟩ 0, "en"⟩ initDoc
        (JSVal.vStr "de") = initDoc ∧
    (setLanguage
        ⟨configLanguages
          (writeArray ⟨[["en"]], [⟨0, "en"⟩]⟩
            (getLanguagesMethod ⟨[["en"]], [⟨0, "en"⟩]⟩ 0) ["en", "de"]) 0,
          "en"⟩ initDoc (JSVal.vStr "de")).docLanguage = some "de" := by
  refine ⟨by decide, by decide, by decide⟩

/-- An options object holding JavaScript values (a schemaType.options
object): an association list, first binding wins. -/
def getProp : List (String × JSVal) → String → JSVal
  | [], _ => .vUndef
  | (k, v) :: rest, key => if k = key then v else getProp rest key

/-- delete obj[k]. -/
def delProp (o : List (String × JSVal)) (k : String) : List (String × JSVal) :=
  o.filter (fun p => p.1 ≠ k)

/-- obj[k] = v. -/
def setProp : List (String × JSVal) → String → JSVal → List (String × JSVal)
  | [], key, v => [(key, v)]
  | (k, w) :: rest, key, v =>
    if k = key then (k, v) :: rest else (k, w) :: setProp rest key v

/-- Lines 87-101 of src/lib/mongoose-intl.js, the body of the forEach that
builds one language's sub-field options: copy the original field options
(extend({}, schemaType.options)); when the language differs (strict
inequality) from options.defaultLanguage AS SUPPLIED BY THE CALLER (line 89
reads the raw options object, not the normalized pluginOptions), delete
default and required; then apply a truthy defaultAll as default and a truthy
requiredAll as required. -/
def deriveLangOptions (fieldOpts : List (String × JSVal))
    (callerDefaultLanguage : JSVal) (lang : String) : List (String × JSVal) :=
  let lo := fieldOpts
  let lo := if JSVal.vStr lang ≠ callerDefaultLanguage then
      delProp (delProp lo "default") "required"
    else lo
  let lo := if truthy (getProp fieldOpts "defaultAll") then
      setProp lo "default" (getProp fieldOpts "defaultAll")
    else lo
  let lo := if truthy (getProp fieldOpts "requiredAll") then
      setProp lo "required" (getProp fieldOpts "requiredAll")
    else lo
  lo

/-- Lines 83-102: delete the intl marker from the field options, then build
the per-language options for every configured language. -/
def buildIntlObject (pluginLanguages : List String)
    (fieldOpts : List (String × JSVal)) (callerDefaultLanguage : JSVal) :
    List (String × List (String × JSVal)) :=
  pluginLanguages.map fun lang =>
    (lang, deriveLangOptions (delProp fieldOpts "intl") callerDefaultLanguage lang)

/-- Look up one language's derived options in the built intl object. -/
def langOptionsFor : List (String × List (String × JSVal)) → String →
    List (String × JSVal)
  | [], _ => []
  | (k, v) :: rest, key => if k = key then v else langOptionsFor rest key

/-- Claim C3, behavior of the code at the failing input: attaching with
languages en, de and NO supplied defaultLanguage resolves the configured
default language to en (the normalization of lines 17-22), yet the rewritten
sub-field for en — the configured default language — has its default and
required options stripped, because line 89 compares against the raw
options.defaultLanguage (undefined here) instead of the normalized
pluginOptions.defaultLanguage, and a string is never strictly equal to
undefined. This contradicts the repository's own documentation (default and
required are applied to the default language field) and the claim. -/
theorem derive_options_default_stripped :
    normDefault "en" ["de"] none = "en" ∧
    getProp
        (langOptionsFor
        (buildIntlObject ["en", "de"]
            [("intl", JSVal.vBool true), ("default", JSVal.vStr "x"),
              ("required", JSVal.vBool true)]
            JSVal.vUndef) "en") "default" = JSVal.vUndef ∧
    getProp
        (langOptionsFor
        (buildIntlObject ["en", "de"]
            [("intl", JSVal.vBool true), ("default", JSVal.vStr "x"),
              ("required", JSVal.vBool true)]
            JSVal.vUndef) "en") "required" = JSVal.vUndef ∧
    getProp
        (langOptionsFor
        (buildIntlObject ["en", "de"]
            [("intl", JSVal.vBool true), ("default", JSVal.vStr "x"),
              ("required", JSVal.vBool true)]
            (JSVal.vStr "en")) "en") "default" = JSVal.vStr "x" := by
  refine ⟨rfl, by decide, by decide, by decide⟩

end MongooseIntl
